import Mathlib

/-!
# Verification of the UNIETAXI dispatch engine (src/UNIETAXI_webapp.py)

Shallow embedding of the core of the taxi-dispatch simulator:

* the matching routine `CentralSystem._assign_taxi`,
* the trip finalization in `CentralSystem._service`,
* request submission `CentralSystem.create_client_request`,
* the HTTP route layer `create_request` / `stop_sim`,
* the memoized geocoder `geocode_street`.

Coordinates and ratings are modelled over `ℚ`.  The source computes
Euclidean distances (`math.dist`) with floats and only ever *compares*
them (radius check, sort key); comparing nonnegative distances agrees
with comparing their squares, so the executable model keeps the squared
distance `dist_sq : ℚ` in control flow and the true Euclidean distance
`distance : ℝ` (via `Real.sqrt`) appears in fares and in the statements
about distances.  Money (fares, earnings, profit) is modelled over `ℝ`
with exact arithmetic in place of IEEE floats.

Concurrency: the dispatcher thread and the per-trip service threads are
modelled by a small-step system.  `_assign_taxi` runs entirely inside the
global binary semaphore (and the availability check-and-claim is under the
chosen taxi's lock), so a whole assignment attempt is one atomic step
`Event.dispatch`; the finalization block of `_service` (lines 203-225)
is one atomic step `Event.finish i q` (`i` selects which in-flight trip
finishes, `q` is the random trip-quality sample of `random.uniform`).
Interleavings of the workers are arbitrary lists of events.
-/

namespace UnieTaxi

/-- A 2D coordinate, as in the source's `Tuple[float, float]`. -/
abbrev Point := ℚ × ℚ

/-- Squared Euclidean distance between two points.  `Taxi.distance_to`
in the source is `math.dist`, the Euclidean distance; the executable model
carries the square (see the file docstring), and `distance` below is the
actual Euclidean distance. -/
def dist_sq (p q : Point) : ℚ :=
  (p.1 - q.1) ^ 2 + (p.2 - q.2) ^ 2

/-- Euclidean distance, `math.dist` of the source. -/
noncomputable def distance (p q : Point) : ℝ :=
  Real.sqrt ((dist_sq p q : ℚ) : ℝ)

/-- Constant `MATCH_RADIUS = 2.0` from the source configuration. -/
def MATCH_RADIUS : ℚ := 2.0

/-- Constant `SERVICE_FEE_RATE = 0.20` from the source configuration. -/
def SERVICE_FEE_RATE : ℚ := 0.20

/-- Constant `MADRID_MIN_X = 40.37`. -/
def MADRID_MIN_X : ℚ := 40.37

/-- Constant `MADRID_MAX_X = 40.50`. -/
def MADRID_MAX_X : ℚ := 40.50

/-- Constant `MADRID_MIN_Y = -3.80`. -/
def MADRID_MIN_Y : ℚ := -3.80

/-- Constant `MADRID_MAX_Y = -3.63`. -/
def MADRID_MAX_Y : ℚ := -3.63

/-- Python's `round(x, 2)` over the idealized reals: round to the nearest
hundredth. -/
noncomputable def round2 (x : ℝ) : ℝ :=
  ((round (x * 100) : ℤ) : ℝ) / 100

/-- Python's `round(x, 2)` on rationals (used for the rating update). -/
def round2q (x : ℚ) : ℚ :=
  ((round (x * 100) : ℤ) : ℚ) / 100

/-- Python's `round(x, 6)` on rationals (used by the geocoder). -/
def round6q (x : ℚ) : ℚ :=
  ((round (x * 1000000) : ℤ) : ℚ) / 1000000

/-- The fare computed at trip finalization (`_service`, lines 203-204):
`fare = round(dist * 1.6 + 2.0, 2)` with `dist = math.dist(origin, destination)`. -/
noncomputable def fareOf (origin destination : Point) : ℝ :=
  round2 (distance origin destination * 1.6 + 2.0)

/-- The `Taxi` dataclass.  The per-taxi `threading.Lock` is not data; the
locking discipline is reflected in the atomicity of the steps below. -/
structure Taxi where
  taxi_id : ℕ
  plate : String
  location : Point
  rating : ℚ
  available : Bool
  earnings : ℝ

/-- The `Client` dataclass. -/
structure Client where
  client_id : ℕ
  name : String
  location : Point

/-- The `RequestObj` dataclass (the wall-clock `timestamp` field is not
modelled). -/
structure RequestObj where
  request_id : ℕ
  client : Client
  origin : Point
  destination : Point
  assigned_taxi : Option ℕ
  completed : Bool
  fare : ℝ

/-- Sort key order used by `_assign_taxi`:
`candidates.sort(key=lambda x: (x[0], -x[1].rating))`, i.e. ascending
lexicographic order on `(distance, -rating)`.  (Distances are represented
squared; squaring is monotone on nonnegative distances, so the order is
the same.) -/
def taxiLe (a b : ℚ × Taxi) : Bool :=
  decide (a.1 < b.1) || (decide (a.1 = b.1) && decide (b.2.rating ≤ a.2.rating))

/-- The candidate scan of `_assign_taxi` (lines 161-169): keep every
available taxi whose distance to the request origin is at most
`MATCH_RADIUS`, paired with that distance (squared here: `d ≤ 2` iff
`d² ≤ MATCH_RADIUS²` for `d ≥ 0`). -/
def candidatesFor (taxis : List Taxi) (origin : Point) : List (ℚ × Taxi) :=
  (taxis.filter fun t =>
      t.available && decide (dist_sq t.location origin ≤ MATCH_RADIUS ^ 2)).map
    fun t => (dist_sq t.location origin, t)

/-- Mutation `chosen.available = False` on the shared `Taxi` object with id
`tid`, seen as a rewrite of one collection entry. -/
def claimTaxi (tid : ℕ) (t : Taxi) : Taxi :=
  if t.taxi_id = tid then { t with available := false } else t

/-- Mutation `chosen.available = False`, applied to the taxi collection (the source
mutates the shared `Taxi` object; the model rewrites the entry with that
id). -/
def setUnavailable (taxis : List Taxi) (tid : ℕ) : List Taxi :=
  taxis.map (claimTaxi tid)

/-- Matching routine `CentralSystem._assign_taxi` (lines 160-181): scan candidates, sort by
`(distance, -rating)`, take the first, re-check availability under the
taxi's lock, claim it.  Returns the chosen taxi id and the updated taxi
collection, or `none` when the request could not be matched. -/
def assign_taxi (taxis : List Taxi) (origin : Point) : Option (ℕ × List Taxi) :=
  (((candidatesFor taxis origin).mergeSort taxiLe).head?).bind fun chosen0 =>
    let chosen := chosen0.2
    if chosen.available then
      some (chosen.taxi_id, setUnavailable taxis chosen.taxi_id)
    else none

/-- The engine state of a `CentralSystem` instance.  `pending` is the
`requests` queue (FIFO), `inProgress` holds the requests whose `_service`
thread is running, `completed` is `completed_services`, `profit` is
`company_monthly_profit`. -/
structure EngineState where
  taxis : List Taxi
  pending : List RequestObj
  inProgress : List RequestObj
  completed : List RequestObj
  profit : ℝ
  request_counter : ℕ
  running : Bool

/-- A fresh pending request, as built by `create_client_request`. -/
def mkRequest (rid : ℕ) (client : Client) (origin destination : Point) :
    RequestObj :=
  { request_id := rid
    client := client
    origin := origin
    destination := destination
    assigned_taxi := none
    completed := false
    fare := 0 }

/-- Submission `CentralSystem.create_client_request` (lines 109-119): increment the
request counter, enqueue a fresh pending request under `requests_lock`,
notify the adjudicator (no data effect), and return the new id.  Note that
it does not consult `running`. -/
def create_client_request (s : EngineState) (client : Client)
    (origin destination : Point) : EngineState × ℕ :=
  let rid := s.request_counter + 1
  ({ s with
      request_counter := rid
      pending := s.pending ++ [mkRequest rid client origin destination] }, rid)

/-- One atomic step of one of the workers: `dispatch` is a pass of the
adjudicator loop processing the head of the queue; `finish i q` is the
finalization block of the `_service` thread of the `i`-th in-flight trip,
with `q` the random quality sample; `submit c o d` is an external request
producer calling `create_client_request`. -/
inductive Event where
  | dispatch : Event
  | finish : ℕ → ℚ → Event
  | submit : Client → Point → Point → Event

/-- One adjudicator pass (`_adjudicator`, lines 134-158): pop the head
request; if `_assign_taxi` matches it, record the assignment and spawn its
service thread (the request moves to `inProgress`); otherwise re-queue it
at the tail.  With an empty queue the pass does nothing. -/
def dispatchStep (s : EngineState) : EngineState :=
  match s.pending with
  | [] => s
  | req :: rest =>
      match assign_taxi s.taxis req.origin with
      | none => { s with pending := rest ++ [req] }
      | some (tid, taxis1) =>
          { s with
              taxis := taxis1
              pending := rest
              inProgress :=
                s.inProgress ++ [{ req with assigned_taxi := some tid }] }

/-- Per-taxi effect of the finalization block of `_service`: the taxi with
the trip's id moves to the destination, becomes available again, earns
`fare * (1 - SERVICE_FEE_RATE)`, and its rating becomes the rounded damped
average with the random quality sample `q`. -/
noncomputable def freeTaxi (req : RequestObj) (q : ℚ) (tid : ℕ) (t : Taxi) : Taxi :=
  if t.taxi_id = tid then
    { t with
        location := req.destination
        available := true
        earnings := t.earnings +
          fareOf req.origin req.destination * (1 - (SERVICE_FEE_RATE : ℝ))
        rating := round2q ((t.rating + q) / 2) }
  else t

/-- Trip finalization (`_service`, lines 203-225): compute the fare, move
the taxi to the destination, free it, credit `fare * (1 - SERVICE_FEE_RATE)`
to its earnings, update its rating with the random sample `q`, mark the
request completed with its fare, append it to `completed_services`, and add
`fare * SERVICE_FEE_RATE` to the company profit. -/
noncomputable def finishStep (s : EngineState) (i : ℕ) (q : ℚ) : EngineState :=
  match s.inProgress[i]? with
  | none => s
  | some req =>
      match req.assigned_taxi with
      | none => s
      | some tid =>
          { s with
              taxis := s.taxis.map (freeTaxi req q tid)
              inProgress := s.inProgress.eraseIdx i
              completed := s.completed ++
                [{ req with
                    completed := true
                    fare := fareOf req.origin req.destination }]
              profit := s.profit +
                fareOf req.origin req.destination * (SERVICE_FEE_RATE : ℝ) }

/-- Interleaving semantics: apply one worker step. -/
noncomputable def step (s : EngineState) : Event → EngineState
  | Event.dispatch => dispatchStep s
  | Event.finish i q => finishStep s i q
  | Event.submit c o d => (create_client_request s c o d).1

/-- Run a whole interleaving (a list of worker steps). -/
noncomputable def run (s : EngineState) : List Event → EngineState
  | [] => s
  | e :: es => run (step s e) es

/-- Operation `CentralSystem.start` (running flag part; thread spawning is implicit
in the step semantics). -/
def start (s : EngineState) : EngineState :=
  { s with running := true }

/-- Operation `CentralSystem.stop`: clear the running flag (and wake the waiters). -/
def stop (s : EngineState) : EngineState :=
  { s with running := false }

/-- The Flask route layer's global `central : Optional[CentralSystem]`. -/
abbrev WebState := Option EngineState

/-- The `/stop` route `stop_sim` (lines 443-452): if an engine exists,
call `central.stop()` and discard the instance (`central = None`). -/
def stop_sim (w : WebState) : WebState :=
  match w with
  | none => none
  | some c =>
      let _ := stop c
      none

/-- The `/request` route `create_request` (lines 466-480): reject with the
error `"Sistema no está en ejecución"` when there is no engine or it is not
running, leaving all state untouched; otherwise submit the request through
`create_client_request` and answer the fresh id.  (The street strings have
already been resolved to coordinates by `geocode_street`, modelled
separately below.) -/
def create_request (w : WebState) (client : Client)
    (origin destination : Point) : WebState × Except String ℕ :=
  match w with
  | none => (none, Except.error "Sistema no está en ejecución")
  | some c =>
      if c.running then
        let p := create_client_request c client origin destination
        (some p.1, Except.ok p.2)
      else (some c, Except.error "Sistema no está en ejecución")

/-- Python's `street.strip().lower()` normalization in `geocode_street`. -/
def normalize_street (street : String) : String :=
  street.trim.toLower

/-- The deterministic point constructed from the hash of a normalized
street name (`geocode_street`, lines 250-253).  `pyhash` models Python's
built-in string hash, fixed for the lifetime of the process. -/
def geocode_point (pyhash : String → ℤ) (key : String) : Point :=
  let h := (pyhash key).natAbs
  let rx := MADRID_MIN_X + ((h % 1000 : ℕ) : ℚ) / 1000 * (MADRID_MAX_X - MADRID_MIN_X)
  let ry := MADRID_MIN_Y + ((h / 1000 % 1000 : ℕ) : ℚ) / 1000 * (MADRID_MAX_Y - MADRID_MIN_Y)
  (round6q rx, round6q ry)

/-- `geocode_street` (lines 245-255) with its memo table `street_cache`
passed explicitly: normalize, look the key up in the cache, otherwise
compute the point from the hash and record it. -/
def geocode_street (pyhash : String → ℤ) (cache : List (String × Point))
    (street : String) : Point × List (String × Point) :=
  let key := normalize_street street
  match cache.lookup key with
  | some pt => (pt, cache)
  | none =>
      let pt := geocode_point pyhash key
      (pt, (key, pt) :: cache)

/-! ## Concrete fixtures used to exercise the model -/

/-- A registered taxi at the origin, as built by the `/start` route
(`Taxi(1, "TAXI-101", ...)`, fresh rating 4.5, available, no earnings). -/
def taxi0 : Taxi :=
  { taxi_id := 1
    plate := "TAXI-101"
    location := (0, 0)
    rating := 4.5
    available := true
    earnings := 0 }

/-- A sample client. -/
def client0 : Client :=
  { client_id := 1000
    name := "Ana"
    location := (1, 0) }

/-- A sample fresh engine with one taxi and two pending requests (both
origins within the match radius of the taxi). -/
def engine0 : EngineState :=
  { taxis := [taxi0]
    pending :=
      [mkRequest 1 client0 (1, 0) (3, 4), mkRequest 2 client0 (0, 1) (4, 3)]
    inProgress := []
    completed := []
    profit := 0
    request_counter := 2
    running := true }

/-- The sample taxi, claimed by a trip. -/
def taxi0busy : Taxi :=
  { taxi0 with available := false }

/-- A sample request assigned to taxi 1, in progress. -/
def reqA : RequestObj :=
  { request_id := 1
    client := client0
    origin := (1, 0)
    destination := (3, 4)
    assigned_taxi := some 1
    completed := false
    fare := 0 }

/-- A sample engine with one trip in flight. -/
def engine1 : EngineState :=
  { taxis := [taxi0busy]
    pending := []
    inProgress := [reqA]
    completed := []
    profit := 0
    request_counter := 1
    running := true }

/-- A sample completed request (fare recorded by `_service`). -/
noncomputable def reqDone : RequestObj :=
  { request_id := 1
    client := client0
    origin := (1, 0)
    destination := (3, 4)
    assigned_taxi := some 1
    completed := true
    fare := fareOf (1, 0) (3, 4) }

/-- A sample engine state after one completed trip. -/
noncomputable def engine2 : EngineState :=
  { taxis := [taxi0]
    pending := []
    inProgress := []
    completed := [reqDone]
    profit := fareOf (1, 0) (3, 4) * (SERVICE_FEE_RATE : ℝ)
    request_counter := 1
    running := true }

/-! ## Invariants -/

/-- Well-formedness of an engine state.  A fresh `CentralSystem` (empty
queues, taxis registered with distinct ids) satisfies it, and every worker
step preserves it. -/
structure WF (s : EngineState) : Prop where
  taxi_ids_nodup : (s.taxis.map Taxi.taxi_id).Nodup
  req_ids_nodup :
    ((s.pending ++ s.inProgress ++ s.completed).map RequestObj.request_id).Nodup
  req_ids_le : ∀ r ∈ s.pending ++ s.inProgress ++ s.completed,
    r.request_id ≤ s.request_counter
  assigned_nodup : (s.inProgress.filterMap RequestObj.assigned_taxi).Nodup
  inprog_taxi : ∀ r ∈ s.inProgress, ∃ tid, r.assigned_taxi = some tid ∧
    ∃ t ∈ s.taxis, t.taxi_id = tid ∧ t.available = false
  pending_fresh : ∀ r ∈ s.pending, r.assigned_taxi = none ∧ r.completed = false
  inprog_flags : ∀ r ∈ s.inProgress, r.completed = false
  completed_flags : ∀ r ∈ s.completed, r.completed = true ∧
    r.assigned_taxi.isSome = true ∧ r.fare = fareOf r.origin r.destination

/-- Induction invariant of the C1 scenario: `K` registered taxis, of which
`K - #inProgress` are still available, every pending request unassigned and
within the match radius of every taxi, `M` requests circulating in total. -/
structure Scen (K M : ℕ) (s : EngineState) : Prop where
  ids : (s.taxis.map Taxi.taxi_id).Nodup
  avail : (s.taxis.filter fun t => t.available).length = K - s.inProgress.length
  kbound : s.inProgress.length ≤ K
  counts : s.pending.length + s.inProgress.length = M
  fresh : ∀ r ∈ s.pending, r.assigned_taxi = none ∧ r.completed = false
  range : ∀ r ∈ s.pending, ∀ t ∈ s.taxis,
    dist_sq t.location r.origin ≤ MATCH_RADIUS ^ 2
  asg : (s.inProgress.filterMap RequestObj.assigned_taxi).Nodup
  inprog : ∀ r ∈ s.inProgress, ∃ tid, r.assigned_taxi = some tid ∧
    ∃ t ∈ s.taxis, t.taxi_id = tid ∧ t.available = false

/-! ## Distances and rounding -/

lemma dist_sq_nonneg (p q : Point) : 0 ≤ dist_sq p q := by
  unfold dist_sq; positivity

lemma distance_nonneg (p q : Point) : 0 ≤ distance p q :=
  Real.sqrt_nonneg _

/-- Comparing a Euclidean distance with a nonnegative rational threshold is
the same as comparing the squared distance with the squared threshold. -/
lemma distance_le_iff {p q : Point} {r : ℚ} (hr : 0 ≤ r) :
    distance p q ≤ (r : ℝ) ↔ dist_sq p q ≤ r ^ 2 := by
  unfold distance
  rw [show ((r : ℝ)) = Real.sqrt ((r : ℝ) ^ 2) from
    (Real.sqrt_sq (by exact_mod_cast hr)).symm]
  rw [Real.sqrt_le_sqrt_iff (by positivity)]
  exact ⟨fun h => by exact_mod_cast h, fun h => by exact_mod_cast h⟩

/-- Comparing Euclidean distances is the same as comparing squared
distances. -/
lemma distance_le_distance_iff {a b c d : Point} :
    distance a b ≤ distance c d ↔ dist_sq a b ≤ dist_sq c d := by
  unfold distance
  rw [Real.sqrt_le_sqrt_iff (by exact_mod_cast dist_sq_nonneg c d)]
  exact ⟨fun h => by exact_mod_cast h, fun h => by exact_mod_cast h⟩

lemma distance_eq_distance_iff {a b c d : Point} :
    distance a b = distance c d ↔ dist_sq a b = dist_sq c d := by
  constructor
  · intro h
    exact le_antisymm (distance_le_distance_iff.mp h.le)
      (distance_le_distance_iff.mp h.ge)
  · intro h
    unfold distance
    rw [h]

lemma round2_ge_two {x : ℝ} (hx : 2 ≤ x) : 2 ≤ round2 x := by
  unfold round2
  have h1 : (200 : ℤ) ≤ round (x * 100) := by
    rw [round_eq, Int.le_floor]
    push_cast
    linarith
  have h2 : ((200 : ℤ) : ℝ) ≤ ((round (x * 100) : ℤ) : ℝ) := by exact_mod_cast h1
  push_cast at h2
  linarith

/-- Every fare is at least the base fare of 2 euros: the distance is
nonnegative, so the pre-rounding amount is at least 2, and rounding to
hundredths cannot go below 2. -/
lemma fareOf_ge_two (o d : Point) : 2 ≤ fareOf o d := by
  unfold fareOf
  apply round2_ge_two
  nlinarith [distance_nonneg o d]

lemma fareOf_pos (o d : Point) : 0 < fareOf o d :=
  lt_of_lt_of_le (by norm_num) (fareOf_ge_two o d)

/-! ## The matching routine -/

lemma mem_candidatesFor {taxis : List Taxi} {origin : Point} {c : ℚ × Taxi} :
    c ∈ candidatesFor taxis origin ↔
      c.2 ∈ taxis ∧ c.2.available = true ∧
        dist_sq c.2.location origin ≤ MATCH_RADIUS ^ 2 ∧
        c.1 = dist_sq c.2.location origin := by
  unfold candidatesFor
  simp only [List.mem_map, List.mem_filter, Bool.and_eq_true, decide_eq_true_eq]
  constructor
  · rintro ⟨t, ⟨ht, hav, hd⟩, rfl⟩
    exact ⟨ht, hav, hd, rfl⟩
  · rintro ⟨ht, hav, hd, hc⟩
    refine ⟨c.2, ⟨ht, hav, hd⟩, ?_⟩
    obtain ⟨c1, c2⟩ := c
    simp only at hc
    rw [hc]

lemma taxiLe_trans : ∀ a b c : ℚ × Taxi,
    taxiLe a b = true → taxiLe b c = true → taxiLe a c = true := by
  intro a b c hab hbc
  simp only [taxiLe, Bool.or_eq_true, Bool.and_eq_true, decide_eq_true_eq]
    at hab hbc ⊢
  rcases hab with h1 | ⟨h1, h2⟩ <;> rcases hbc with h3 | ⟨h3, h4⟩
  · exact Or.inl (h1.trans h3)
  · exact Or.inl (h3 ▸ h1)
  · exact Or.inl (h1 ▸ h3)
  · exact Or.inr ⟨h1.trans h3, h4.trans h2⟩

lemma taxiLe_total : ∀ a b : ℚ × Taxi, (taxiLe a b || taxiLe b a) = true := by
  intro a b
  simp only [taxiLe, Bool.or_eq_true, Bool.and_eq_true, decide_eq_true_eq]
  rcases lt_trichotomy a.1 b.1 with h | h | h
  · exact Or.inl (Or.inl h)
  · rcases le_total b.2.rating a.2.rating with hr | hr
    · exact Or.inl (Or.inr ⟨h, hr⟩)
    · exact Or.inr (Or.inr ⟨h.symm, hr⟩)
  · exact Or.inr (Or.inl h)

/-- Characterization of a successful `_assign_taxi` call: the choice is the
head of the sorted candidate list, it is an available candidate, and the
returned collection marks it unavailable. -/
lemma assign_taxi_eq_some {taxis : List Taxi} {origin : Point} {tid : ℕ}
    {taxis1 : List Taxi} (h : assign_taxi taxis origin = some (tid, taxis1)) :
    ∃ c rest, (candidatesFor taxis origin).mergeSort taxiLe = c :: rest ∧
      c ∈ candidatesFor taxis origin ∧ c.2.taxi_id = tid ∧
      c.2.available = true ∧ taxis1 = setUnavailable taxis tid := by
  unfold assign_taxi at h
  cases hm : (candidatesFor taxis origin).mergeSort taxiLe with
  | nil => rw [hm] at h; simp at h
  | cons c rest =>
      rw [hm] at h
      simp only [List.head?_cons, Option.some_bind] at h
      by_cases hav : c.2.available = true
      · rw [if_pos hav] at h
        simp only [Option.some.injEq, Prod.mk.injEq] at h
        obtain ⟨h1, h2⟩ := h
        refine ⟨c, rest, rfl, ?_, h1, hav, by rw [← h2, h1]⟩
        exact List.mem_mergeSort.mp (by rw [hm]; exact List.mem_cons_self c rest)
      · rw [if_neg hav] at h
        simp at h

/-- With a nonempty sorted candidate list, `_assign_taxi` selects exactly
its head. -/
lemma assign_taxi_head {taxis : List Taxi} {origin : Point} {c : ℚ × Taxi}
    {rest : List (ℚ × Taxi)}
    (hm : (candidatesFor taxis origin).mergeSort taxiLe = c :: rest)
    (hav : c.2.available = true) :
    assign_taxi taxis origin =
      some (c.2.taxi_id, setUnavailable taxis c.2.taxi_id) := by
  unfold assign_taxi
  rw [hm]
  simp [hav]

/-- C4.  Every request matched by `_assign_taxi` goes to a taxi that was
available at scan time and whose Euclidean distance to the request origin
is at most `MATCH_RADIUS`; and when every available taxi is strictly
farther than the match radius from the origin, the call reports no match. -/
theorem match_within_radius (taxis : List Taxi) (origin : Point) :
    (∀ tid taxis1, assign_taxi taxis origin = some (tid, taxis1) →
      ∃ t ∈ taxis, t.taxi_id = tid ∧ t.available = true ∧
        distance t.location origin ≤ ((MATCH_RADIUS : ℚ) : ℝ)) ∧
    ((∀ t ∈ taxis, t.available = true →
        ((MATCH_RADIUS : ℚ) : ℝ) < distance t.location origin) →
      assign_taxi taxis origin = none) := by
  constructor
  · intro tid taxis1 h
    obtain ⟨c, rest, hm, hcm, hid, hav, -⟩ := assign_taxi_eq_some h
    obtain ⟨hmem, hav2, hd, -⟩ := mem_candidatesFor.mp hcm
    refine ⟨c.2, hmem, hid, hav2, ?_⟩
    exact (distance_le_iff (by norm_num [MATCH_RADIUS])).mpr hd
  · intro hfar
    have hnil : candidatesFor taxis origin = [] := by
      unfold candidatesFor
      rw [List.filter_eq_nil_iff.mpr, List.map_nil]
      intro t ht
      simp only [Bool.and_eq_true, decide_eq_true_eq, not_and]
      intro hav
      have := hfar t ht hav
      intro hd
      exact absurd ((distance_le_iff (by norm_num [MATCH_RADIUS])).mpr hd)
        (not_le.mpr this)
    unfold assign_taxi
    rw [hnil, List.mergeSort_nil]
    rfl

/-- C5.  When `_assign_taxi` has a nonempty candidate set (sorted list
`c :: rest`), it selects the first candidate `c` after sorting by
`(distance ascending, rating descending)`: `c` is at minimal Euclidean
distance among all candidates, and any candidate at the same distance as
`c` has rating at most `c`'s. -/
theorem match_prefers_nearest_then_rating (taxis : List Taxi) (origin : Point)
    (c : ℚ × Taxi) (rest : List (ℚ × Taxi))
    (h : (candidatesFor taxis origin).mergeSort taxiLe = c :: rest) :
    assign_taxi taxis origin =
        some (c.2.taxi_id, setUnavailable taxis c.2.taxi_id) ∧
    ∀ d ∈ candidatesFor taxis origin,
      distance c.2.location origin ≤ distance d.2.location origin ∧
      (distance d.2.location origin = distance c.2.location origin →
        d.2.rating ≤ c.2.rating) := by
  have hcm : c ∈ candidatesFor taxis origin :=
    List.mem_mergeSort.mp (h ▸ List.mem_cons_self c rest)
  obtain ⟨-, hav, -, hc1⟩ := mem_candidatesFor.mp hcm
  constructor
  · exact assign_taxi_head h hav
  · intro d hd
    obtain ⟨-, -, -, hd1⟩ := mem_candidatesFor.mp hd
    have hsorted := List.sorted_mergeSort taxiLe_trans taxiLe_total
      (candidatesFor taxis origin)
    rw [h, List.pairwise_cons] at hsorted
    have hdm : d ∈ c :: rest := h ▸ List.mem_mergeSort.mpr hd
    rcases List.mem_cons.mp hdm with rfl | hdr
    · exact ⟨le_refl _, fun _ => le_refl _⟩
    · have hle := hsorted.1 d hdr
      simp only [taxiLe, Bool.or_eq_true, Bool.and_eq_true,
        decide_eq_true_eq] at hle
      constructor
      · apply distance_le_distance_iff.mpr
        rw [← hc1, ← hd1]
        rcases hle with h1 | ⟨h1, -⟩
        · exact le_of_lt h1
        · exact le_of_eq h1
      · intro heq
        have heq2 : d.1 = c.1 := by
          rw [hc1, hd1]
          exact distance_eq_distance_iff.mp heq
        rcases hle with h1 | ⟨-, h2⟩
        · exact absurd (heq2 ▸ h1) (lt_irrefl _)
        · exact h2

/-- Witness for C4 at a concrete input: one available taxi at the origin
and a request one unit away is matched within the radius. -/
theorem match_within_radius_witness :
    ∃ t ∈ [taxi0], t.taxi_id = 1 ∧ t.available = true ∧
      distance t.location (1, 0) ≤ ((MATCH_RADIUS : ℚ) : ℝ) := by
  have hc : candidatesFor [taxi0] (1, 0) = [(1, taxi0)] := by
    unfold candidatesFor taxi0
    norm_num [List.filter_cons, List.filter_nil, dist_sq, MATCH_RADIUS]
  have hm : (candidatesFor [taxi0] (1, 0)).mergeSort taxiLe = [(1, taxi0)] := by
    rw [hc, List.mergeSort_singleton]
  have hsome : assign_taxi [taxi0] (1, 0) =
      some (taxi0.taxi_id, setUnavailable [taxi0] taxi0.taxi_id) :=
    assign_taxi_head hm rfl
  exact (match_within_radius [taxi0] (1, 0)).1 taxi0.taxi_id
    (setUnavailable [taxi0] taxi0.taxi_id) hsome

/-- Witness for C5 at a concrete input. -/
theorem match_prefers_nearest_then_rating_witness :
    assign_taxi [taxi0] (1, 0) =
        some (taxi0.taxi_id, setUnavailable [taxi0] taxi0.taxi_id) ∧
    ∀ d ∈ candidatesFor [taxi0] (1, 0),
      distance taxi0.location (1, 0) ≤ distance d.2.location (1, 0) ∧
      (distance d.2.location (1, 0) = distance taxi0.location (1, 0) →
        d.2.rating ≤ taxi0.rating) := by
  have hc : candidatesFor [taxi0] (1, 0) = [(1, taxi0)] := by
    unfold candidatesFor taxi0
    norm_num [List.filter_cons, List.filter_nil, dist_sq, MATCH_RADIUS]
  have hm : (candidatesFor [taxi0] (1, 0)).mergeSort taxiLe = [(1, taxi0)] := by
    rw [hc, List.mergeSort_singleton]
  exact match_prefers_nearest_then_rating [taxi0] (1, 0) (1, taxi0) [] hm

/-! ## The route layer -/

/-- C7.  With the engine stopped (the `/stop` route ran `stop_sim`, which
calls `central.stop()` and discards the instance; or no engine was ever
started, `central = None`; or the retained instance's running flag is
down), the `/request` route `create_request` answers the distinct
"Sistema no está en ejecución" error and leaves the state exactly as it
was: no request id is allocated, the request counter is not incremented
and nothing is enqueued. -/
theorem submit_rejected_when_stopped (u w : WebState) (client : Client)
    (origin destination : Point)
    (h : w = stop_sim u ∨ w = none ∨ ∃ c, w = some c ∧ c.running = false) :
    create_request w client origin destination =
      (w, Except.error "Sistema no está en ejecución") := by
  have hw : w = none ∨ ∃ c, w = some c ∧ c.running = false := by
    rcases h with rfl | h | h
    · cases u <;> simp [stop_sim]
    · exact Or.inl h
    · exact Or.inr h
  rcases hw with rfl | ⟨c, rfl, hc⟩
  · rfl
  · simp [create_request, hc]

/-- Witness for C7: stopping and then submitting fails and changes
nothing. -/
theorem submit_rejected_when_stopped_witness :
    create_request (stop_sim (some engine0)) client0 (1, 0) (3, 4) =
      (stop_sim (some engine0), Except.error "Sistema no está en ejecución") :=
  submit_rejected_when_stopped (some engine0) (stop_sim (some engine0))
    client0 (1, 0) (3, 4) (Or.inl rfl)

/-- C10.  `CentralSystem.create_client_request` itself never consults the
running flag: on every engine state, including one whose flag is down, it
returns the next sequential id, increments the counter and appends a fresh
pending request, changing nothing else; the "not running" rejection lives
only in the HTTP route layer (`create_request` errors exactly when the
flag is down). -/
theorem create_client_request_ignores_running (s : EngineState)
    (client : Client) (origin destination : Point) :
    (create_client_request s client origin destination).2 =
        s.request_counter + 1 ∧
    (create_client_request s client origin destination).1 =
      { s with
          request_counter := s.request_counter + 1
          pending := s.pending ++
            [mkRequest (s.request_counter + 1) client origin destination] } ∧
    ((create_request (some s) client origin destination).2 =
        Except.error "Sistema no está en ejecución" ↔ s.running = false) := by
  refine ⟨rfl, rfl, ?_⟩
  cases hr : s.running with
  | true => simp [create_request, hr]
  | false => simp [create_request, hr]

/-! ## The geocoder -/

lemma geocode_street_lookup_some (pyhash : String → ℤ)
    {cache : List (String × Point)} {street : String} {pt : Point}
    (h : cache.lookup (normalize_street street) = some pt) :
    geocode_street pyhash cache street = (pt, cache) := by
  simp [geocode_street, h]

lemma geocode_street_lookup_none (pyhash : String → ℤ)
    {cache : List (String × Point)} {street : String}
    (h : cache.lookup (normalize_street street) = none) :
    geocode_street pyhash cache street =
      (geocode_point pyhash (normalize_street street),
        (normalize_street street,
          geocode_point pyhash (normalize_street street)) :: cache) := by
  simp [geocode_street, h]

/-- C8.  `geocode_street` is deterministic and idempotent: with the
process-fixed string hash `pyhash`, calling it again with the same street
returns exactly the result of the first call (the second call is answered
from the memo cache), and any two street strings that agree after
strip-and-lowercase normalization resolve to identical coordinates. -/
theorem geocode_deterministic_idempotent (pyhash : String → ℤ)
    (cache : List (String × Point)) (s1 s2 : String)
    (h : normalize_street s1 = normalize_street s2) :
    (geocode_street pyhash (geocode_street pyhash cache s1).2 s1).1 =
        (geocode_street pyhash cache s1).1 ∧
    (geocode_street pyhash cache s2).1 = (geocode_street pyhash cache s1).1 := by
  cases hl : cache.lookup (normalize_street s1) with
  | some pt =>
      have e1 := geocode_street_lookup_some pyhash hl
      have hl2 : cache.lookup (normalize_street s2) = some pt := by
        rw [← h]; exact hl
      have e2 := geocode_street_lookup_some pyhash hl2
      constructor
      · simp [e1]
      · simp [e1, e2]
  | none =>
      have e1 := geocode_street_lookup_none pyhash hl
      rw [e1]
      constructor
      · have hl2 : ((normalize_street s1,
            geocode_point pyhash (normalize_street s1)) :: cache).lookup
              (normalize_street s1) =
            some (geocode_point pyhash (normalize_street s1)) := by
          simp [List.lookup]
        rw [geocode_street_lookup_some pyhash hl2]
      · have hl2 : cache.lookup (normalize_street s2) = none := by
          rw [← h]; exact hl
        rw [geocode_street_lookup_none pyhash hl2, ← h]

/-- Witness for C8 at a concrete input. -/
theorem geocode_deterministic_idempotent_witness :
    (geocode_street (fun _ => 7) (geocode_street (fun _ => 7) [] "Gran  Via").2
        "Gran  Via").1 =
      (geocode_street (fun _ => 7) [] "Gran  Via").1 ∧
    (geocode_street (fun _ => 7) [] "Gran  Via").1 =
      (geocode_street (fun _ => 7) [] "Gran  Via").1 :=
  geocode_deterministic_idempotent (fun _ => 7) [] "Gran  Via" "Gran  Via" rfl

/-! ## List bookkeeping lemmas -/

lemma perm_cons_eraseIdx {α : Type} {l : List α} {i : ℕ} {a : α}
    (h : l[i]? = some a) : l.Perm (a :: l.eraseIdx i) := by
  induction l generalizing i with
  | nil => simp at h
  | cons b t ih =>
      cases i with
      | zero =>
          rw [List.getElem?_cons_zero, Option.some.injEq] at h
          subst h
          rw [List.eraseIdx_cons_zero]
      | succ i =>
          rw [List.getElem?_cons_succ] at h
          rw [List.eraseIdx_cons_succ]
          exact ((ih h).cons b).trans (List.Perm.swap a b _)

/-- Moving an element from the middle group to the front is a
permutation. -/
lemma perm_move_middle {α : Type} (a : α) (p q r : List α) :
    (p ++ (q ++ [a]) ++ r).Perm (a :: (p ++ q ++ r)) := by
  have he : p ++ (q ++ [a]) ++ r = (p ++ q) ++ a :: r := by simp
  rw [he]
  exact List.perm_middle

/-- Appending an element at the tail of the first group and putting it in
front is a permutation. -/
lemma perm_submit_ids {α : Type} (p q r : List α) (a : α) :
    ((p ++ [a]) ++ q ++ r).Perm (a :: (p ++ q ++ r)) :=
  List.Perm.append_right r (List.Perm.append_right q (List.perm_append_singleton a p))

/-- Taking an element out of the middle group and appending it to the last
group is a permutation of the concatenation. -/
lemma perm_finish_ids {α : Type} (A B C : List α) (i : ℕ) (x : α)
    (hx : B[i]? = some x) :
    (A ++ B.eraseIdx i ++ (C ++ [x])).Perm (A ++ B ++ C) := by
  have h1 : B.Perm (x :: B.eraseIdx i) := perm_cons_eraseIdx hx
  simp only [List.append_assoc]
  apply List.Perm.append_left
  refine List.Perm.trans
    (List.Perm.append_left _ (List.perm_append_singleton x C)) ?_
  refine List.Perm.trans List.perm_middle ?_
  exact (h1.append_right C).symm

/-- Erasing an index keeps a duplicate-free `filterMap` duplicate-free. -/
lemma nodup_filterMap_eraseIdx {α β : Type} (f : α → Option β) {l : List α}
    (i : ℕ) (h : (l.filterMap f).Nodup) :
    ((l.eraseIdx i).filterMap f).Nodup :=
  List.Nodup.sublist (List.Sublist.filterMap f (List.eraseIdx_sublist l i)) h

/-- In a list whose `filterMap` is duplicate-free, the value extracted at
index `i` does not occur among the values extracted from the rest. -/
lemma filterMap_eraseIdx_ne {α β : Type} (f : α → Option β) {l : List α}
    {i : ℕ} {a : α} {b : β} (hnd : (l.filterMap f).Nodup)
    (hi : l[i]? = some a) (hf : f a = some b) :
    ∀ x ∈ l.eraseIdx i, ∀ c, f x = some c → c ≠ b := by
  induction l generalizing i with
  | nil => simp at hi
  | cons hd t ih =>
      have htnd : (t.filterMap f).Nodup := by
        cases hfd : f hd with
        | none => rw [List.filterMap_cons_none hfd] at hnd; exact hnd
        | some v =>
            rw [List.filterMap_cons_some hfd] at hnd
            exact (List.nodup_cons.mp hnd).2
      cases i with
      | zero =>
          rw [List.getElem?_cons_zero, Option.some.injEq] at hi
          subst hi
          rw [List.eraseIdx_cons_zero]
          intro x hx c hc hcb
          rw [List.filterMap_cons_some hf] at hnd
          rw [hcb] at hc
          exact (List.nodup_cons.mp hnd).1 (List.mem_filterMap.mpr ⟨x, hx, hc⟩)
      | succ i =>
          rw [List.getElem?_cons_succ] at hi
          rw [List.eraseIdx_cons_succ]
          intro x hx c hc hcb
          rcases List.mem_cons.mp hx with rfl | hx'
          · have hbmem : b ∈ t.filterMap f :=
              List.mem_filterMap.mpr ⟨a, List.getElem?_mem hi, hf⟩
            rw [hcb] at hc
            rw [List.filterMap_cons_some hc] at hnd
            exact (List.nodup_cons.mp hnd).1 hbmem
          · exact ih htnd hi x hx' c hc hcb

/-! ## Taxi collection update lemmas -/

/-- Rewriting entries of the taxi collection through an id-preserving
update keeps the id listing. -/
lemma map_taxi_id_update (taxis : List Taxi) (g : Taxi → Taxi)
    (hg : ∀ t, (g t).taxi_id = t.taxi_id) :
    (taxis.map g).map Taxi.taxi_id = taxis.map Taxi.taxi_id := by
  rw [List.map_map]
  exact List.map_congr_left fun t _ => hg t

lemma claimTaxi_taxi_id (tid : ℕ) (t : Taxi) :
    (claimTaxi tid t).taxi_id = t.taxi_id := by
  by_cases h : t.taxi_id = tid <;> simp [claimTaxi, h]

lemma claimTaxi_location (tid : ℕ) (t : Taxi) :
    (claimTaxi tid t).location = t.location := by
  by_cases h : t.taxi_id = tid <;> simp [claimTaxi, h]

lemma freeTaxi_taxi_id (req : RequestObj) (q : ℚ) (tid : ℕ) (t : Taxi) :
    (freeTaxi req q tid t).taxi_id = t.taxi_id := by
  by_cases h : t.taxi_id = tid <;> simp [freeTaxi, h]

lemma setUnavailable_map_taxi_id (taxis : List Taxi) (tid : ℕ) :
    (setUnavailable taxis tid).map Taxi.taxi_id = taxis.map Taxi.taxi_id :=
  map_taxi_id_update taxis _ (claimTaxi_taxi_id tid)

/-- Any entry of `setUnavailable taxis tid` comes from an entry of `taxis`
with the same id and location, and an availability that can only have been
turned off. -/
lemma mem_setUnavailable {taxis : List Taxi} {tid : ℕ} {t1 : Taxi}
    (h : t1 ∈ setUnavailable taxis tid) :
    ∃ t ∈ taxis, t1.taxi_id = t.taxi_id ∧ t1.location = t.location ∧
      (t1.available = t.available ∨ t1.available = false) := by
  obtain ⟨t, ht, rfl⟩ := List.mem_map.mp h
  refine ⟨t, ht, claimTaxi_taxi_id tid t, claimTaxi_location tid t, ?_⟩
  by_cases he : t.taxi_id = tid <;> simp [claimTaxi, he]

/-- A witness of unavailability survives `setUnavailable`. -/
lemma exists_unavailable_setUnavailable {taxis : List Taxi} {tid0 tid : ℕ}
    (h : ∃ t ∈ taxis, t.taxi_id = tid0 ∧ t.available = false) :
    ∃ t ∈ setUnavailable taxis tid, t.taxi_id = tid0 ∧ t.available = false := by
  obtain ⟨t, ht, hid, hav⟩ := h
  refine ⟨claimTaxi tid t, List.mem_map_of_mem _ ht,
    (claimTaxi_taxi_id tid t).trans hid, ?_⟩
  by_cases he : t.taxi_id = tid <;> simp [claimTaxi, he, hav]

/-- The taxi claimed by `setUnavailable` is recorded as unavailable. -/
lemma claimed_unavailable {taxis : List Taxi} {c2 : Taxi} (hc : c2 ∈ taxis) :
    ∃ t ∈ setUnavailable taxis c2.taxi_id, t.taxi_id = c2.taxi_id ∧
      t.available = false := by
  refine ⟨claimTaxi c2.taxi_id c2, List.mem_map_of_mem _ hc, ?_, ?_⟩ <;>
    simp [claimTaxi]

lemma map_eraseIdx {α β : Type} (f : α → β) (l : List α) (i : ℕ) :
    (l.eraseIdx i).map f = (l.map f).eraseIdx i := by
  induction l generalizing i with
  | nil => simp
  | cons a t ih =>
      cases i with
      | zero => simp
      | succ i =>
          rw [List.eraseIdx_cons_succ, List.map_cons, List.map_cons,
            List.eraseIdx_cons_succ, ih]

/-! ## Step equations -/

lemma dispatchStep_nil {s : EngineState} (hp : s.pending = []) :
    dispatchStep s = s := by
  simp only [dispatchStep, hp]

lemma dispatchStep_requeue {s : EngineState} {req : RequestObj}
    {rest : List RequestObj} (hp : s.pending = req :: rest)
    (ha : assign_taxi s.taxis req.origin = none) :
    dispatchStep s = { s with pending := rest ++ [req] } := by
  simp only [dispatchStep, hp, ha]

lemma dispatchStep_assign {s : EngineState} {req : RequestObj}
    {rest : List RequestObj} {tid : ℕ} {taxis1 : List Taxi}
    (hp : s.pending = req :: rest)
    (ha : assign_taxi s.taxis req.origin = some (tid, taxis1)) :
    dispatchStep s =
      { s with
          taxis := taxis1
          pending := rest
          inProgress :=
            s.inProgress ++ [{ req with assigned_taxi := some tid }] } := by
  simp only [dispatchStep, hp, ha]

lemma finishStep_nothing {s : EngineState} {i : ℕ} {q : ℚ}
    (hg : s.inProgress[i]? = none) : finishStep s i q = s := by
  simp only [finishStep, hg]

lemma finishStep_noassign {s : EngineState} {i : ℕ} {q : ℚ}
    {req : RequestObj} (hg : s.inProgress[i]? = some req)
    (hasg : req.assigned_taxi = none) : finishStep s i q = s := by
  simp only [finishStep, hg, hasg]

lemma finishStep_eq {s : EngineState} {i : ℕ} {q : ℚ} {req : RequestObj}
    {tid : ℕ} (hg : s.inProgress[i]? = some req)
    (hasg : req.assigned_taxi = some tid) :
    finishStep s i q =
      { s with
          taxis := s.taxis.map (freeTaxi req q tid)
          inProgress := s.inProgress.eraseIdx i
          completed := s.completed ++
            [{ req with
                completed := true
                fare := fareOf req.origin req.destination }]
          profit := s.profit +
            fareOf req.origin req.destination * (SERVICE_FEE_RATE : ℝ) } := by
  simp only [finishStep, hg, hasg]

/-! ## Preservation of the well-formedness invariant -/

/-- After a successful claim of the available taxi `c2`, the in-progress
trips extended with the new assignment reference pairwise-distinct taxis,
each recorded unavailable in the updated collection. -/
lemma assigned_after_claim {taxis : List Taxi} {inProg : List RequestObj}
    {c2 : Taxi} (hids : (taxis.map Taxi.taxi_id).Nodup)
    (hnd : (inProg.filterMap RequestObj.assigned_taxi).Nodup)
    (hwit : ∀ r ∈ inProg, ∃ tid, r.assigned_taxi = some tid ∧
      ∃ t ∈ taxis, t.taxi_id = tid ∧ t.available = false)
    (hc : c2 ∈ taxis) (hcav : c2.available = true) (req1 : RequestObj)
    (hr1 : req1.assigned_taxi = some c2.taxi_id) :
    ((inProg ++ [req1]).filterMap RequestObj.assigned_taxi).Nodup ∧
    ∀ r ∈ inProg ++ [req1], ∃ tid, r.assigned_taxi = some tid ∧
      ∃ t ∈ setUnavailable taxis c2.taxi_id, t.taxi_id = tid ∧
        t.available = false := by
  have hnotmem : c2.taxi_id ∉ inProg.filterMap RequestObj.assigned_taxi := by
    intro hmem
    obtain ⟨r, hr, hra⟩ := List.mem_filterMap.mp hmem
    obtain ⟨tid, hra2, t, ht, htid, htav⟩ := hwit r hr
    rw [hra2] at hra
    obtain rfl := Option.some.inj hra
    have hteq : t = c2 := List.inj_on_of_nodup_map hids ht hc htid
    rw [hteq, hcav] at htav
    simp at htav
  constructor
  · rw [List.filterMap_append, List.filterMap_cons_some hr1,
      List.filterMap_nil, List.nodup_append]
    refine ⟨hnd, List.nodup_singleton _, ?_⟩
    intro a ha hb
    rw [List.mem_singleton.mp hb] at ha
    exact hnotmem ha
  · intro r hr
    rcases List.mem_append.mp hr with hr' | hr'
    · obtain ⟨tid, hra, hw⟩ := hwit r hr'
      exact ⟨tid, hra, exists_unavailable_setUnavailable hw⟩
    · rw [List.mem_singleton.mp hr']
      exact ⟨c2.taxi_id, hr1, claimed_unavailable hc⟩

/-- One adjudicator pass preserves well-formedness. -/
lemma WF_dispatchStep {s : EngineState} (h : WF s) : WF (dispatchStep s) := by
  cases hp : s.pending with
  | nil => rw [dispatchStep_nil hp]; exact h
  | cons req rest =>
      cases ha : assign_taxi s.taxis req.origin with
      | none =>
          rw [dispatchStep_requeue hp ha]
          have hperm := perm_submit_ids rest s.inProgress s.completed req
          refine ⟨h.taxi_ids_nodup, ?_, ?_, h.assigned_nodup, h.inprog_taxi,
            ?_, h.inprog_flags, h.completed_flags⟩
          · refine ((hperm.map RequestObj.request_id).nodup_iff).mpr ?_
            have hnd := h.req_ids_nodup
            rw [hp] at hnd
            exact hnd
          · intro r hr
            apply h.req_ids_le r
            rw [hp]
            exact (hperm.mem_iff).mp hr
          · intro r hr
            apply h.pending_fresh r
            rw [hp]
            rcases List.mem_append.mp hr with h1 | h1
            · exact List.mem_cons_of_mem req h1
            · rw [List.mem_singleton.mp h1]
              exact List.mem_cons_self req rest
      | some p =>
          obtain ⟨tid, taxis1⟩ := p
          obtain ⟨c, crest, hm, hcm, hcid, hcav, htx1⟩ := assign_taxi_eq_some ha
          obtain ⟨hcmem, hcav2, -, -⟩ := mem_candidatesFor.mp hcm
          subst hcid
          subst htx1
          rw [dispatchStep_assign hp ha]
          have hr1 : ({ req with assigned_taxi := some c.2.taxi_id } :
              RequestObj).assigned_taxi = some c.2.taxi_id := rfl
          obtain ⟨hA1, hA2⟩ := assigned_after_claim h.taxi_ids_nodup
            h.assigned_nodup h.inprog_taxi hcmem hcav2
            { req with assigned_taxi := some c.2.taxi_id } hr1
          have hperm := perm_move_middle
            ({ req with assigned_taxi := some c.2.taxi_id } : RequestObj)
            rest s.inProgress s.completed
          refine ⟨?_, ?_, ?_, hA1, hA2, ?_, ?_, h.completed_flags⟩
          · rw [setUnavailable_map_taxi_id]
            exact h.taxi_ids_nodup
          · refine ((hperm.map RequestObj.request_id).nodup_iff).mpr ?_
            have hnd := h.req_ids_nodup
            rw [hp] at hnd
            exact hnd
          · intro r hr
            rcases List.mem_cons.mp ((hperm.mem_iff).mp hr) with h1 | h1
            · rw [h1]
              exact h.req_ids_le req (by
                rw [hp]
                exact List.mem_cons_self req (rest ++ s.inProgress ++ s.completed))
            · exact h.req_ids_le r
                (by rw [hp]; exact List.mem_cons_of_mem req h1)
          · intro r hr
            apply h.pending_fresh r
            rw [hp]
            exact List.mem_cons_of_mem req hr
          · intro r hr
            rcases List.mem_append.mp hr with h1 | h1
            · exact h.inprog_flags r h1
            · rw [List.mem_singleton.mp h1]
              exact (h.pending_fresh req (by rw [hp]; exact List.mem_cons_self req rest)).2

/-- A trip finalization preserves well-formedness. -/
lemma WF_finishStep {s : EngineState} (h : WF s) (i : ℕ) (q : ℚ) :
    WF (finishStep s i q) := by
  cases hg : s.inProgress[i]? with
  | none => rw [finishStep_nothing hg]; exact h
  | some req =>
      cases hasg : req.assigned_taxi with
      | none => rw [finishStep_noassign hg hasg]; exact h
      | some tid =>
          rw [finishStep_eq hg hasg]
          have hreqmem : req ∈ s.inProgress := List.getElem?_mem hg
          refine ⟨?_, ?_, ?_, ?_, ?_, h.pending_fresh, ?_, ?_⟩
          · rw [map_taxi_id_update s.taxis (freeTaxi req q tid)
              (freeTaxi_taxi_id req q tid)]
            exact h.taxi_ids_nodup
          · have hnd := h.req_ids_nodup
            have hIg : (s.inProgress.map RequestObj.request_id)[i]? =
                some req.request_id := by
              rw [List.getElem?_map, hg]
              rfl
            have hperm := perm_finish_ids
              (s.pending.map RequestObj.request_id)
              (s.inProgress.map RequestObj.request_id)
              (s.completed.map RequestObj.request_id) i req.request_id hIg
            simp only [List.map_append, List.map_cons, List.map_nil,
              map_eraseIdx] at hperm hnd ⊢
            exact (hperm.nodup_iff).mpr hnd
          · intro r hr
            simp only [List.mem_append, List.mem_singleton] at hr
            rcases hr with (h1 | h1) | (h1 | h1)
            · exact h.req_ids_le r
                (by simp only [List.mem_append]; exact Or.inl (Or.inl h1))
            · exact h.req_ids_le r (by
                simp only [List.mem_append]
                exact Or.inl (Or.inr
                  ((List.eraseIdx_sublist s.inProgress i).subset h1)))
            · exact h.req_ids_le r
                (by simp only [List.mem_append]; exact Or.inr h1)
            · rw [h1]
              exact h.req_ids_le req (by
                simp only [List.mem_append]
                exact Or.inl (Or.inr hreqmem))
          · exact nodup_filterMap_eraseIdx _ i h.assigned_nodup
          · intro r hr
            obtain ⟨tidr, hra, t, ht, htid, htav⟩ := h.inprog_taxi r
              ((List.eraseIdx_sublist s.inProgress i).subset hr)
            have hne : tidr ≠ tid :=
              filterMap_eraseIdx_ne RequestObj.assigned_taxi h.assigned_nodup
                hg hasg r hr tidr hra
            refine ⟨tidr, hra, t, ?_, htid, htav⟩
            have hfix : freeTaxi req q tid t = t := by
              simp only [freeTaxi]
              rw [if_neg (by rw [htid]; exact hne)]
            rw [← hfix]
            exact List.mem_map_of_mem _ ht
          · intro r hr
            exact h.inprog_flags r
              ((List.eraseIdx_sublist s.inProgress i).subset hr)
          · intro r hr
            rcases List.mem_append.mp hr with h1 | h1
            · exact h.completed_flags r h1
            · rw [List.mem_singleton.mp h1]
              refine ⟨rfl, ?_, rfl⟩
              show req.assigned_taxi.isSome = true
              rw [hasg]
              rfl

/-- A request submission preserves well-formedness. -/
lemma WF_create {s : EngineState} (h : WF s) (c : Client) (o d : Point) :
    WF (create_client_request s c o d).1 := by
  have hperm := perm_submit_ids s.pending s.inProgress s.completed
    (mkRequest (s.request_counter + 1) c o d)
  refine ⟨h.taxi_ids_nodup, ?_, ?_, h.assigned_nodup, h.inprog_taxi, ?_,
    h.inprog_flags, h.completed_flags⟩
  · refine ((hperm.map RequestObj.request_id).nodup_iff).mpr ?_
    rw [List.map_cons]
    refine List.nodup_cons.mpr ⟨?_, h.req_ids_nodup⟩
    intro hmem
    obtain ⟨r, hrm, hrid⟩ := List.mem_map.mp hmem
    have h1 := h.req_ids_le r hrm
    have h2 : r.request_id = s.request_counter + 1 := hrid
    omega
  · intro r hr
    rcases List.mem_cons.mp ((hperm.mem_iff).mp hr) with h1 | h1
    · rw [h1]
      exact le_refl _
    · have h2 := h.req_ids_le r h1
      show r.request_id ≤ s.request_counter + 1
      omega
  · intro r hr
    rcases List.mem_append.mp hr with h1 | h1
    · exact h.pending_fresh r h1
    · rw [List.mem_singleton.mp h1]
      exact ⟨rfl, rfl⟩

/-- Every worker step preserves well-formedness. -/
lemma WF_step {s : EngineState} (h : WF s) (e : Event) : WF (step s e) := by
  cases e with
  | dispatch => exact WF_dispatchStep h
  | finish i q => exact WF_finishStep h i q
  | submit c o d => exact WF_create h c o d

/-- Well-formedness holds after every interleaving of worker steps. -/
lemma WF_run {s : EngineState} (h : WF s) (tr : List Event) : WF (run s tr) := by
  induction tr generalizing s with
  | nil => exact h
  | cons e es ih => exact ih (WF_step h e)

lemma step_dispatch (s : EngineState) :
    step s Event.dispatch = dispatchStep s := rfl

lemma step_finish (s : EngineState) (i : ℕ) (q : ℚ) :
    step s (Event.finish i q) = finishStep s i q := rfl

lemma step_submit (s : EngineState) (c : Client) (o d : Point) :
    step s (Event.submit c o d) = (create_client_request s c o d).1 := rfl

/-- The sample engine `engine0` is well-formed. -/
lemma WF_engine0 : WF engine0 := by
  refine ⟨by decide, by decide, by decide, by decide, ?_, by decide, ?_, ?_⟩ <;>
    intro r hr <;> simp [engine0] at hr

/-- The sample engine `engine2` is well-formed. -/
lemma WF_engine2 : WF engine2 := by
  refine ⟨by decide, by decide, by decide, by decide, ?_, ?_, ?_, ?_⟩
  · intro r hr
    simp [engine2] at hr
  · intro r hr
    simp [engine2] at hr
  · intro r hr
    simp [engine2] at hr
  · intro r hr
    rw [show engine2.completed = [reqDone] from rfl] at hr
    rw [List.mem_singleton.mp hr]
    exact ⟨rfl, rfl, rfl⟩

/-- C2.  Every completed request of every execution records exactly the
fare `round(distance(origin, destination) * 1.6 + 2.0, 2)` (rate 1.6,
base fare 2.0), and that fare is strictly positive. -/
theorem completed_fare_formula (init : EngineState) (h : WF init)
    (tr : List Event) :
    ∀ r ∈ (run init tr).completed,
      r.fare = round2 (distance r.origin r.destination * 1.6 + 2.0) ∧
      0 < r.fare := by
  intro r hr
  obtain ⟨-, -, hf⟩ := (WF_run h tr).completed_flags r hr
  refine ⟨hf, ?_⟩
  rw [hf]
  exact fareOf_pos r.origin r.destination

/-- Witness for C2 at a concrete completed request. -/
theorem completed_fare_formula_witness :
    reqDone.fare =
      round2 (distance reqDone.origin reqDone.destination * 1.6 + 2.0) ∧
    0 < reqDone.fare :=
  completed_fare_formula engine2 WF_engine2 [] reqDone
    (List.mem_cons_self reqDone [])

/-- C6.  At every point of every execution: a completed request is flagged
completed with an assigned taxi and a strictly positive fare; queued
requests are unassigned and not completed; in-flight requests are assigned
and not completed; and no request id occurs in two of the three
collections — every request is in exactly one lifecycle state. -/
theorem request_lifecycle_invariant (init : EngineState) (h : WF init)
    (tr : List Event) :
    (∀ r ∈ (run init tr).completed, r.completed = true ∧
      r.assigned_taxi.isSome = true ∧ 0 < r.fare) ∧
    (∀ r ∈ (run init tr).pending,
      r.completed = false ∧ r.assigned_taxi = none) ∧
    (∀ r ∈ (run init tr).inProgress,
      r.completed = false ∧ r.assigned_taxi.isSome = true) ∧
    (((run init tr).pending ++ (run init tr).inProgress ++
      (run init tr).completed).map RequestObj.request_id).Nodup := by
  have hW := WF_run h tr
  refine ⟨?_, ?_, ?_, hW.req_ids_nodup⟩
  · intro r hr
    obtain ⟨h1, h2, hf⟩ := hW.completed_flags r hr
    exact ⟨h1, h2, by rw [hf]; exact fareOf_pos r.origin r.destination⟩
  · intro r hr
    obtain ⟨h1, h2⟩ := hW.pending_fresh r hr
    exact ⟨h2, h1⟩
  · intro r hr
    obtain ⟨tid, hra, -⟩ := hW.inprog_taxi r hr
    exact ⟨hW.inprog_flags r hr, by rw [hra]; rfl⟩

/-- Witness for C6. -/
theorem request_lifecycle_invariant_witness :
    (∀ r ∈ (run engine0 [Event.dispatch]).completed, r.completed = true ∧
      r.assigned_taxi.isSome = true ∧ 0 < r.fare) ∧
    (∀ r ∈ (run engine0 [Event.dispatch]).pending,
      r.completed = false ∧ r.assigned_taxi = none) ∧
    (∀ r ∈ (run engine0 [Event.dispatch]).inProgress,
      r.completed = false ∧ r.assigned_taxi.isSome = true) ∧
    (((run engine0 [Event.dispatch]).pending ++
      (run engine0 [Event.dispatch]).inProgress ++
      (run engine0 [Event.dispatch]).completed).map
        RequestObj.request_id).Nodup :=
  request_lifecycle_invariant engine0 WF_engine0 [Event.dispatch]

/-- Profit bookkeeping: if the profit is the fee sum over the completed
trips, it stays so after any interleaving (each finalization adds
`fare * SERVICE_FEE_RATE` to the profit and the trip to the archive). -/
lemma profit_eq_fee_sum {s : EngineState}
    (hs : s.profit = ((s.completed.map fun r =>
      r.fare * (SERVICE_FEE_RATE : ℝ)).sum)) (tr : List Event) :
    (run s tr).profit = (((run s tr).completed.map fun r =>
      r.fare * (SERVICE_FEE_RATE : ℝ)).sum) := by
  induction tr generalizing s with
  | nil => exact hs
  | cons e es ih =>
      show (run (step s e) es).profit = _
      apply ih
      cases e with
      | dispatch =>
          rw [step_dispatch]
          cases hp : s.pending with
          | nil => rw [dispatchStep_nil hp]; exact hs
          | cons req rest =>
              cases ha : assign_taxi s.taxis req.origin with
              | none => rw [dispatchStep_requeue hp ha]; exact hs
              | some p =>
                  obtain ⟨tid, taxis1⟩ := p
                  rw [dispatchStep_assign hp ha]
                  exact hs
      | finish i q =>
          rw [step_finish]
          cases hg : s.inProgress[i]? with
          | none => rw [finishStep_nothing hg]; exact hs
          | some req =>
              cases hasg : req.assigned_taxi with
              | none => rw [finishStep_noassign hg hasg]; exact hs
              | some tid =>
                  rw [finishStep_eq hg hasg]
                  dsimp only
                  rw [List.map_append, List.sum_append, hs]
                  simp
      | submit c o d =>
          rw [step_submit]
          exact hs

/-- C3.  After any interleaving from a fresh accounting state the company
monthly profit equals the sum over the completed trips of
`fare * SERVICE_FEE_RATE` (exactly, in the idealized real arithmetic
standing in for floats), and a trip finalization credits exactly
`fare * (1 - SERVICE_FEE_RATE)` to the assigned taxi's cumulative
earnings. -/
theorem profit_and_earnings_accounting (init : EngineState)
    (h0 : init.completed = []) (h1 : init.profit = 0) (tr : List Event)
    (s : EngineState) (i : ℕ) (q : ℚ) (req : RequestObj) (tid : ℕ) (t : Taxi)
    (hreq : s.inProgress[i]? = some req) (htid : req.assigned_taxi = some tid)
    (ht : t ∈ s.taxis) :
    ((run init tr).profit = (((run init tr).completed.map fun r =>
      r.fare * (SERVICE_FEE_RATE : ℝ)).sum)) ∧
    (t.taxi_id = tid → ∃ t1 ∈ (finishStep s i q).taxis, t1.taxi_id = tid ∧
      t1.earnings = t.earnings +
        fareOf req.origin req.destination * (1 - (SERVICE_FEE_RATE : ℝ))) := by
  constructor
  · apply profit_eq_fee_sum
    rw [h0, h1]
    simp
  · intro hid
    rw [finishStep_eq hreq htid]
    refine ⟨freeTaxi req q tid t, List.mem_map_of_mem _ ht, ?_, ?_⟩
    · rw [freeTaxi_taxi_id]
      exact hid
    · simp only [freeTaxi]
      rw [if_pos hid]

/-- Witness for C3 at concrete states. -/
theorem profit_and_earnings_accounting_witness :
    ((run engine0 [Event.dispatch]).profit =
      (((run engine0 [Event.dispatch]).completed.map fun r =>
        r.fare * (SERVICE_FEE_RATE : ℝ)).sum)) ∧
    (taxi0busy.taxi_id = 1 →
      ∃ t1 ∈ (finishStep engine1 0 4).taxis, t1.taxi_id = 1 ∧
        t1.earnings = taxi0busy.earnings +
          fareOf reqA.origin reqA.destination *
            (1 - (SERVICE_FEE_RATE : ℝ))) :=
  profit_and_earnings_accounting engine0 rfl rfl [Event.dispatch] engine1 0 4
    reqA 1 taxi0busy rfl rfl (List.mem_cons_self taxi0busy [])

/-! ## The dispatch scenario of C1 -/

lemma run_append (s : EngineState) (l1 l2 : List Event) :
    run s (l1 ++ l2) = run (run s l1) l2 := by
  induction l1 generalizing s with
  | nil => rfl
  | cons e es ih => exact ih (step s e)

/-- Claiming an available taxi (unique by id) decreases the number of
available taxis by one. -/
lemma length_filter_claim {taxis : List Taxi} {c2 : Taxi}
    (hids : (taxis.map Taxi.taxi_id).Nodup) (hc : c2 ∈ taxis)
    (hcav : c2.available = true) :
    ((setUnavailable taxis c2.taxi_id).filter fun t => t.available).length + 1 =
      (taxis.filter fun t => t.available).length := by
  induction taxis with
  | nil => simp at hc
  | cons hd tl ih =>
      rw [List.map_cons, List.nodup_cons] at hids
      show ((claimTaxi c2.taxi_id hd ::
        setUnavailable tl c2.taxi_id).filter fun t => t.available).length + 1 =
        ((hd :: tl).filter fun t => t.available).length
      rcases List.mem_cons.mp hc with heq | hc'
      · have htl : ∀ t ∈ tl, t.taxi_id ≠ c2.taxi_id := by
          intro t htmem habs
          apply hids.1
          rw [← heq, ← habs]
          exact List.mem_map_of_mem Taxi.taxi_id htmem
        have hmap : setUnavailable tl c2.taxi_id = tl := by
          unfold setUnavailable
          have hfix : ∀ t ∈ tl, claimTaxi c2.taxi_id t = t := by
            intro t htm
            simp only [claimTaxi]
            rw [if_neg (htl t htm)]
          calc tl.map (claimTaxi c2.taxi_id) = tl.map id :=
                List.map_congr_left hfix
            _ = tl := List.map_id tl
        have hhd : claimTaxi c2.taxi_id hd = { hd with available := false } := by
          simp only [claimTaxi]
          rw [if_pos (by rw [heq])]
        rw [hmap, hhd, List.filter_cons, List.filter_cons]
        have hhdav : hd.available = true := by rw [← heq]; exact hcav
        simp [hhdav]
      · have hne : hd.taxi_id ≠ c2.taxi_id := by
          intro habs
          exact hids.1 (habs ▸ List.mem_map_of_mem Taxi.taxi_id hc')
        have hhd : claimTaxi c2.taxi_id hd = hd := by
          simp only [claimTaxi]
          rw [if_neg hne]
        rw [hhd, List.filter_cons, List.filter_cons]
        have := ih hids.2 hc'
        cases hav : hd.available <;> simp [hav] <;> omega

/-- With every taxi unavailable, `_assign_taxi` reports no match. -/
lemma assign_taxi_none_of_no_available {taxis : List Taxi} {origin : Point}
    (h : ∀ t ∈ taxis, t.available = false) :
    assign_taxi taxis origin = none := by
  have hnil : candidatesFor taxis origin = [] := by
    unfold candidatesFor
    rw [List.filter_eq_nil_iff.mpr, List.map_nil]
    intro t ht
    simp [h t ht]
  unfold assign_taxi
  rw [hnil, List.mergeSort_nil]
  rfl

/-- One adjudicator pass in the C1 scenario: it preserves the scenario
invariant and assigns one more trip exactly while an available taxi
remains. -/
lemma Scen_dispatch {K M : ℕ} {s : EngineState} (hKM : K < M)
    (h : Scen K M s) :
    Scen K M (dispatchStep s) ∧
    (dispatchStep s).inProgress.length =
      if s.inProgress.length < K then s.inProgress.length + 1
      else s.inProgress.length := by
  have hplen : 0 < s.pending.length := by
    have h1 := h.counts
    have h2 := h.kbound
    omega
  cases hp : s.pending with
  | nil => rw [hp] at hplen; simp at hplen
  | cons req rest =>
      have hplen2 : s.pending.length = rest.length + 1 := by
        rw [hp]; rfl
      by_cases hlt : s.inProgress.length < K
      · have havpos : 0 < (s.taxis.filter fun t => t.available).length := by
          rw [h.avail]; omega
        obtain ⟨t0, ht0f⟩ : ∃ t0, t0 ∈ s.taxis.filter fun t => t.available := by
          cases hf : s.taxis.filter fun t => t.available with
          | nil => rw [hf] at havpos; simp at havpos
          | cons a l => exact ⟨a, hf ▸ List.mem_cons_self a l⟩
        obtain ⟨ht0m, ht0av⟩ := List.mem_filter.mp ht0f
        have hcand : (dist_sq t0.location req.origin, t0) ∈
            candidatesFor s.taxis req.origin :=
          mem_candidatesFor.mpr ⟨ht0m, ht0av,
            h.range req (hp ▸ List.mem_cons_self req rest) t0 ht0m, rfl⟩
        cases hms : (candidatesFor s.taxis req.origin).mergeSort taxiLe with
        | nil =>
            exfalso
            have hmem : (dist_sq t0.location req.origin, t0) ∈
                (candidatesFor s.taxis req.origin).mergeSort taxiLe :=
              List.mem_mergeSort.mpr hcand
            rw [hms] at hmem
            simp at hmem
        | cons c crest =>
            have hcm : c ∈ candidatesFor s.taxis req.origin :=
              List.mem_mergeSort.mp
                (by rw [hms]; exact List.mem_cons_self c crest)
            obtain ⟨hcmem, hcav, -, -⟩ := mem_candidatesFor.mp hcm
            have ha := assign_taxi_head hms hcav
            rw [dispatchStep_assign hp ha]
            obtain ⟨hA1, hA2⟩ := assigned_after_claim h.ids h.asg h.inprog
              hcmem hcav { req with assigned_taxi := some c.2.taxi_id } rfl
            constructor
            · refine ⟨?_, ?_, ?_, ?_, ?_, ?_, hA1, hA2⟩
              · rw [setUnavailable_map_taxi_id]
                exact h.ids
              · show ((setUnavailable s.taxis c.2.taxi_id).filter
                    fun t => t.available).length =
                  K - (s.inProgress ++ [_]).length
                rw [List.length_append]
                simp only [List.length_cons, List.length_nil]
                have hdec := length_filter_claim h.ids hcmem hcav
                have hav2 := h.avail
                have hkb := h.kbound
                omega
              · show (s.inProgress ++ [_]).length ≤ K
                rw [List.length_append]
                simp only [List.length_cons, List.length_nil]
                omega
              · show rest.length + (s.inProgress ++ [_]).length = M
                rw [List.length_append]
                simp only [List.length_cons, List.length_nil]
                have hc2 := h.counts
                omega
              · intro r hr
                exact h.fresh r (by rw [hp]; exact List.mem_cons_of_mem req hr)
              · intro r hr t1 ht1
                obtain ⟨t, ht, -, hloc, -⟩ := mem_setUnavailable ht1
                rw [hloc]
                exact h.range r
                  (by rw [hp]; exact List.mem_cons_of_mem req hr) t ht
            · rw [if_pos hlt]
              show (s.inProgress ++ [_]).length = s.inProgress.length + 1
              rw [List.length_append]
              simp only [List.length_cons, List.length_nil]
      · have hav0 : (s.taxis.filter fun t => t.available).length = 0 := by
          rw [h.avail]
          omega
        have hallun : ∀ t ∈ s.taxis, t.available = false := by
          intro t ht
          have hnil : s.taxis.filter (fun t => t.available) = [] :=
            List.length_eq_zero.mp hav0
          have h2 := List.filter_eq_nil_iff.mp hnil t ht
          simp only [Bool.not_eq_true] at h2
          exact h2
        have ha : assign_taxi s.taxis req.origin = none :=
          assign_taxi_none_of_no_available hallun
        rw [dispatchStep_requeue hp ha]
        constructor
        · refine ⟨h.ids, h.avail, h.kbound, ?_, ?_, ?_, h.asg, h.inprog⟩
          · show (rest ++ [req]).length + s.inProgress.length = M
            rw [List.length_append]
            simp only [List.length_cons, List.length_nil]
            have hc2 := h.counts
            omega
          · intro r hr
            apply h.fresh r
            rw [hp]
            rcases List.mem_append.mp hr with h1 | h1
            · exact List.mem_cons_of_mem req h1
            · rw [List.mem_singleton.mp h1]
              exact List.mem_cons_self req rest
          · intro r hr
            apply h.range r
            rw [hp]
            rcases List.mem_append.mp hr with h1 | h1
            · exact List.mem_cons_of_mem req h1
            · rw [List.mem_singleton.mp h1]
              exact List.mem_cons_self req rest
        · rw [if_neg hlt]

/-- Running `n` adjudicator passes in the C1 scenario yields `min n K`
in-flight trips. -/
lemma Scen_run {K M : ℕ} (hKM : K < M) {init : EngineState}
    (h : Scen K M init) (h0 : init.inProgress.length = 0) :
    ∀ n, Scen K M (run init (List.replicate n Event.dispatch)) ∧
      (run init (List.replicate n Event.dispatch)).inProgress.length =
        min n K := by
  intro n
  induction n with
  | zero =>
      refine ⟨h, ?_⟩
      show init.inProgress.length = min 0 K
      rw [h0]
      omega
  | succ n ih =>
      rw [List.replicate_succ', run_append]
      obtain ⟨hS, hlen⟩ := ih
      obtain ⟨hS', hlen'⟩ := Scen_dispatch hKM hS
      refine ⟨hS', ?_⟩
      show (dispatchStep (run init (List.replicate n Event.dispatch))).inProgress.length =
        min (n + 1) K
      rw [hlen', hlen]
      rcases Nat.lt_or_ge n K with hnk | hnk
      · rw [if_pos (show min n K < K by omega)]
        omega
      · rw [if_neg (show ¬min n K < K by omega)]
        omega

/-- C1.  Mutual exclusion of trips on a taxi: under every interleaving of
the dispatcher, the trip executors and the request producers, the
in-flight trips reference pairwise-distinct taxis and every referenced
taxi is marked unavailable (a taxi freed by `_service` is the only way the
flag returns to available); and in the scenario where `K` registered taxis
are all available, every one of `M > K` pending requests has its origin
within the match radius of every taxi, after `n` adjudicator passes
exactly `min n K` trips are in flight (so exactly `K` once `n ≥ K`) and
`M - min n K` requests remain pending, with no taxi double-assigned. -/
theorem no_taxi_double_assignment (init : EngineState) (h : WF init)
    (tr : List Event) (K M : ℕ) (init2 : EngineState)
    (hids : (init2.taxis.map Taxi.taxi_id).Nodup)
    (hav : ∀ t ∈ init2.taxis, t.available = true)
    (hK : init2.taxis.length = K) (hM : init2.pending.length = M)
    (hKM : K < M)
    (hfresh : ∀ r ∈ init2.pending,
      r.assigned_taxi = none ∧ r.completed = false)
    (hrange : ∀ r ∈ init2.pending, ∀ t ∈ init2.taxis,
      dist_sq t.location r.origin ≤ MATCH_RADIUS ^ 2)
    (hemp : init2.inProgress = []) :
    (((run init tr).inProgress.filterMap RequestObj.assigned_taxi).Nodup ∧
      ∀ r ∈ (run init tr).inProgress, ∃ tid, r.assigned_taxi = some tid ∧
        ∃ t ∈ (run init tr).taxis, t.taxi_id = tid ∧ t.available = false) ∧
    ∀ n : ℕ,
      (run init2 (List.replicate n Event.dispatch)).inProgress.length =
        min n K ∧
      (run init2 (List.replicate n Event.dispatch)).pending.length =
        M - min n K ∧
      ((run init2 (List.replicate n Event.dispatch)).inProgress.filterMap
        RequestObj.assigned_taxi).Nodup := by
  constructor
  · have hW := WF_run h tr
    exact ⟨hW.assigned_nodup, hW.inprog_taxi⟩
  · have hS : Scen K M init2 := by
      refine ⟨hids, ?_, ?_, ?_, hfresh, hrange, ?_, ?_⟩
      · rw [hemp]
        simp only [List.length_nil, Nat.sub_zero]
        rw [List.filter_eq_self.mpr hav]
        exact hK
      · rw [hemp]
        simp
      · rw [hemp]
        simp [hM]
      · rw [hemp]
        simp
      · rw [hemp]
        simp
    intro n
    obtain ⟨hSn, hlen⟩ := Scen_run hKM hS (by rw [hemp]; rfl) n
    refine ⟨hlen, ?_, hSn.asg⟩
    have hc := hSn.counts
    omega

/-- Witness for C1: one available taxi, two in-range requests. -/
theorem no_taxi_double_assignment_witness :
    (((run engine0 []).inProgress.filterMap RequestObj.assigned_taxi).Nodup ∧
      ∀ r ∈ (run engine0 []).inProgress, ∃ tid, r.assigned_taxi = some tid ∧
        ∃ t ∈ (run engine0 []).taxis, t.taxi_id = tid ∧
          t.available = false) ∧
    ∀ n : ℕ,
      (run engine0 (List.replicate n Event.dispatch)).inProgress.length =
        min n 1 ∧
      (run engine0 (List.replicate n Event.dispatch)).pending.length =
        2 - min n 1 ∧
      ((run engine0 (List.replicate n Event.dispatch)).inProgress.filterMap
        RequestObj.assigned_taxi).Nodup :=
  no_taxi_double_assignment engine0 WF_engine0 [] 1 2 engine0
    (by decide) (by decide) rfl rfl (by decide) (by decide)
    (by norm_num [engine0, mkRequest, taxi0, client0, dist_sq, MATCH_RADIUS])
    rfl

end UnieTaxi
